import Mathlib

/-!
# Verification of the DesignMind HLD-generator core

A shallow embedding, in Lean 4, of the pipeline-orchestration core of the
DesignMind repository: the output normalizer `_to_py` (main.py), the three
workflow graphs (workflow/graph.py), the conditional router `should_continue`
(workflow/nodes.py), and the shared workspace / stage-agent contract
(`state/models.py`, `state/schema.py` and the `agent/` package are not part of
the source snapshot, so those parts are modelled from the specification, as
marked on each definition).

Machine integers do not occur in the modelled code paths; Python integers are
unbounded and are modelled as `Int`/`Nat`.
-/

/-! ## Python-style JSON-ish values

`_to_py` in main.py walks parsed-JSON-like Python data: dictionaries (whose
keys may be strings or native ints), lists, and scalars (strings, numbers,
booleans, None). A dictionary is modelled as an association list of
key/value pairs in insertion order; Python dicts have pairwise-distinct keys,
which is stated as a hypothesis where a result needs it. -/

inductive JKey where
  | kStr : String → JKey
  | kInt : Int → JKey
deriving DecidableEq, Repr

inductive JVal where
  | jstr : String → JVal
  | jint : Int → JVal
  | jbool : Bool → JVal
  | jnull : JVal
  | jlist : List JVal → JVal
  | jdict : List (JKey × JVal) → JVal
deriving Repr

/-- Scalars of the model: everything except lists and dictionaries. -/
def isScalar : JVal → Bool
  | .jstr _ => true
  | .jint _ => true
  | .jbool _ => true
  | .jnull => true
  | .jlist _ => false
  | .jdict _ => false

/-- Python `str(k)` on a dictionary key: a string key prints as itself, a
native int prints in decimal (negative ints with a leading `-`). -/
def pyStr : JKey → String
  | .kStr s => s
  | .kInt n => toString n

/-- Python `str.isdigit` restricted to ASCII: nonempty and all characters
are decimal digits. (The repository's keys come from JSON produced by the
backend model; only ASCII digit strings are relevant.) -/
def isDigitStr (s : String) : Bool := !s.data.isEmpty && s.data.all Char.isDigit

/-- `str(k).isdigit()` from main.py line 43. -/
def keyIsDigit (k : JKey) : Bool := isDigitStr (pyStr k)

/-- Python `int(s)` on an all-digit string: its decimal value. -/
def digitsToNat (s : String) : Nat :=
  s.data.foldl (fun a c => 10 * a + (c.toNat - 48)) 0

/-- Python `int(str(k))` (main.py line 44); only applied when
`str(k).isdigit()` holds, in which case a string key parses to its decimal
value and a native int key round-trips to itself. -/
def keyToInt : JKey → Int
  | .kStr s => (digitsToNat s : Int)
  | .kInt n => n

/-- Python dictionary lookup `o[k]`, returning `none` for a `KeyError`. -/
def dictGet (kvs : List (JKey × JVal)) (k : JKey) : Option JVal :=
  match kvs with
  | [] => none
  | (k', v) :: rest => if k' = k then some v else dictGet rest k

theorem dictGet_mem {kvs : List (JKey × JVal)} {k : JKey} {v : JVal}
    (h : dictGet kvs k = some v) : (k, v) ∈ kvs := by
  induction kvs with
  | nil => simp [dictGet] at h
  | cons kv rest ih =>
    obtain ⟨k', v'⟩ := kv
    rw [dictGet] at h
    split at h
    · rename_i heq
      cases h
      subst heq
      exact List.mem_cons_self _ _
    · exact List.mem_cons_of_mem _ (ih h)

theorem sizeOf_lt_of_dictGet {kvs : List (JKey × JVal)} {k : JKey} {v : JVal}
    (h : dictGet kvs k = some v) : sizeOf v < sizeOf kvs := by
  have hm := dictGet_mem h
  have h1 : sizeOf (k, v) ≤ sizeOf kvs := le_of_lt (List.sizeOf_lt_of_mem hm)
  simp only [Prod.mk.sizeOf_spec] at h1
  omega

mutual

/-- The normalizer `_to_py` from main.py lines 39–48. A mapping whose keys are
all syntactically numeric (`keys and all(str(k).isdigit() for k in keys)`) is
rebuilt as the list `[_to_py(o[str(i)]) for i in sorted(map(int, keys))]`;
any other mapping keeps its shape with values normalized; lists normalize
elementwise; scalars pass through. A `KeyError` raised by `o[str(i)]` —
which happens exactly when some key is syntactically numeric but is not the
canonical digit string `str(i)` (e.g. a native int key, or `"00"`) — is
modelled as `none`, and propagates like the Python exception. -/
def toPy : JVal → Option JVal
  | .jstr s => some (.jstr s)
  | .jint n => some (.jint n)
  | .jbool b => some (.jbool b)
  | .jnull => some .jnull
  | .jlist vs => (toPyList vs).map JVal.jlist
  | .jdict kvs =>
    if !(kvs.map Prod.fst).isEmpty && (kvs.map Prod.fst).all keyIsDigit then
      (toPyIdx kvs
        ((((kvs.map Prod.fst).map keyToInt)).mergeSort
          (fun a b => decide (a ≤ b)))).map JVal.jlist
    else
      (toPyDict kvs).map JVal.jdict
termination_by v => (sizeOf v, 1)

def toPyList : List JVal → Option (List JVal)
  | [] => some []
  | v :: rest =>
    match toPy v with
    | none => none
    | some w => (toPyList rest).map (w :: ·)
termination_by vs => (sizeOf vs, 0)

def toPyDict : List (JKey × JVal) → Option (List (JKey × JVal))
  | [] => some []
  | (k, v) :: rest =>
    match toPy v with
    | none => none
    | some w => (toPyDict rest).map ((k, w) :: ·)
termination_by kvs => (sizeOf kvs, 0)

def toPyIdx (kvs : List (JKey × JVal)) : List Int → Option (List JVal)
  | [] => some []
  | i :: rest =>
    match h : dictGet kvs (.kStr (toString i)) with
    | none => none
    | some v =>
      match toPy v with
      | none => none
      | some w => (toPyIdx kvs rest).map (w :: ·)
termination_by is => (sizeOf kvs, sizeOf is)
decreasing_by
  all_goals simp_wf
  all_goals first
    | exact Prod.Lex.left _ _ (sizeOf_lt_of_dictGet h)
    | (apply Prod.Lex.right; simp; omega)
    | (apply Prod.Lex.right; omega)
    | (apply Prod.Lex.left; omega)
    | omega

end

/-! ## Decimal printing and parsing

`_to_py` parses keys with `int(...)` and prints indices back with `str(...)`.
The following lemmas characterise `Nat.repr` (Lean's `str` for naturals) via
a reference printer `decChars`, and show that `int(str(n)) = n`. -/

/-- Reference decimal printer: digit characters of `n`, most significant
first. -/
def decChars (n : Nat) : List Char :=
  if n < 10 then [Nat.digitChar n]
  else decChars (n / 10) ++ [Nat.digitChar (n % 10)]
termination_by n
decreasing_by exact Nat.div_lt_self (by omega) (by omega)

theorem digitChar_isDigit : ∀ r, r < 10 → (Nat.digitChar r).isDigit = true := by decide

theorem digitChar_toNat : ∀ r, r < 10 → (Nat.digitChar r).toNat = r + 48 := by decide

theorem toDigitsCore_eq_decChars :
    ∀ (fuel n : Nat) (ds : List Char), n < fuel →
      Nat.toDigitsCore 10 fuel n ds = decChars n ++ ds := by
  intro fuel
  induction fuel with
  | zero => omega
  | succ f ih =>
    intro n ds hlt
    rw [Nat.toDigitsCore]
    by_cases h0 : n / 10 = 0
    · have hn : n < 10 := by omega
      rw [if_pos h0, decChars, if_pos hn, Nat.mod_eq_of_lt hn]
      rfl
    · have hge : ¬ n < 10 := by omega
      have hdn : decChars n = decChars (n / 10) ++ [Nat.digitChar (n % 10)] := by
        rw [decChars]
        exact if_neg hge
      rw [if_neg h0, ih (n / 10) _ (by omega), hdn, List.append_assoc]
      rfl

theorem repr_eq_decChars (n : Nat) : Nat.repr n = (decChars n).asString := by
  rw [Nat.repr, Nat.toDigits, toDigitsCore_eq_decChars (n + 1) n [] (by omega),
    List.append_nil]

theorem data_repr (n : Nat) : (Nat.repr n).data = decChars n := by
  rw [repr_eq_decChars]
  rfl

theorem decChars_ne_nil (n : Nat) : decChars n ≠ [] := by
  rw [decChars]
  split
  · simp
  · simp

theorem decChars_all_digit (n : Nat) : ∀ c ∈ decChars n, c.isDigit = true := by
  induction n using decChars.induct with
  | case1 n h =>
    rw [decChars, if_pos h]
    intro c hc
    rw [List.mem_singleton] at hc
    subst hc
    exact digitChar_isDigit n h
  | case2 n h ih =>
    rw [decChars, if_neg h]
    intro c hc
    rcases List.mem_append.1 hc with hc | hc
    · exact ih c hc
    · rw [List.mem_singleton] at hc
      subst hc
      exact digitChar_isDigit _ (Nat.mod_lt _ (by omega))

theorem decChars_foldl (n : Nat) :
    ∀ a : Nat, (decChars n).foldl (fun a c => 10 * a + (c.toNat - 48)) a
      = a * 10 ^ (decChars n).length + n := by
  induction n using decChars.induct with
  | case1 n h =>
    intro a
    rw [decChars, if_pos h]
    simp [digitChar_toNat n h]
    ring
  | case2 n h ih =>
    intro a
    rw [decChars, if_neg h]
    rw [List.foldl_append]
    rw [ih a]
    simp only [List.foldl_cons, List.foldl_nil, List.length_append, List.length_singleton]
    rw [digitChar_toNat _ (Nat.mod_lt _ (by omega))]
    have hmod : n % 10 + 48 - 48 = n % 10 := by omega
    rw [hmod]
    have : 10 * (a * 10 ^ (decChars (n / 10)).length + n / 10) + n % 10
        = a * 10 ^ ((decChars (n / 10)).length + 1) + (10 * (n / 10) + n % 10) := by
      ring
    rw [this, Nat.div_add_mod]

theorem digitsToNat_repr (n : Nat) : digitsToNat (Nat.repr n) = n := by
  rw [digitsToNat, data_repr, decChars_foldl]
  simp

theorem toString_nat_eq_repr (n : Nat) : toString n = Nat.repr n := rfl

theorem digitsToNat_toString (n : Nat) : digitsToNat (toString n) = n :=
  digitsToNat_repr n

theorem isDigitStr_toString (n : Nat) : isDigitStr (toString n) = true := by
  rw [isDigitStr, toString_nat_eq_repr, data_repr]
  have h1 : (decChars n).isEmpty = false := by
    rw [List.isEmpty_eq_false_iff_exists_mem]
    rcases List.exists_mem_of_ne_nil _ (decChars_ne_nil n) with ⟨c, hc⟩
    exact ⟨c, hc⟩
  have h2 : (decChars n).all Char.isDigit = true := by
    rw [List.all_eq_true]
    exact decChars_all_digit n
  rw [h1, h2]
  rfl

theorem toString_nat_injective {m n : Nat} (h : toString m = toString n) : m = n := by
  have := digitsToNat_toString m
  rw [h, digitsToNat_toString] at this
  omega

theorem toString_intOfNat (n : Nat) : toString ((n : Nat) : Int) = toString n := rfl

/-! ## Normalizer semantics on canonical numeric-keyed mappings -/

/-- A key as produced by printing a non-negative index: `str(n)` for a
natural `n` — the canonical decimal digit strings (no sign, no leading
zeros). -/
def canonKey (k : JKey) : Prop := ∃ n : Nat, k = .kStr (toString n)

theorem keyIsDigit_of_canon {k : JKey} (h : canonKey k) : keyIsDigit k = true := by
  obtain ⟨n, rfl⟩ := h
  rw [keyIsDigit, pyStr]
  exact isDigitStr_toString n

theorem kStr_toString_keyToInt {k : JKey} (h : canonKey k) :
    JKey.kStr (toString (keyToInt k)) = k := by
  obtain ⟨n, rfl⟩ := h
  rw [keyToInt, digitsToNat_toString, toString_intOfNat]

theorem dictGet_of_mem_nodup {kvs : List (JKey × JVal)} {k : JKey} {v : JVal}
    (hnd : (kvs.map Prod.fst).Nodup) (hm : (k, v) ∈ kvs) : dictGet kvs k = some v := by
  induction kvs with
  | nil => cases hm
  | cons kv rest ih =>
    obtain ⟨k', v'⟩ := kv
    rw [List.map_cons, List.nodup_cons] at hnd
    rw [dictGet]
    rcases List.mem_cons.1 hm with heq | hmem
    · cases heq
      simp
    · have hne : k' ≠ k := by
        intro he
        subst he
        exact hnd.1 (List.mem_map.2 ⟨(k', v), hmem, rfl⟩)
      rw [if_neg hne]
      exact ih hnd.2 hmem

theorem toPyIdx_nil (kvs : List (JKey × JVal)) : toPyIdx kvs [] = some [] := by
  rw [toPyIdx]

theorem toPyIdx_cons_of_get {kvs : List (JKey × JVal)} {i : Int} {v : JVal}
    (hv : dictGet kvs (.kStr (toString i)) = some v) (rest : List Int) :
    toPyIdx kvs (i :: rest)
      = match toPy v with
        | none => none
        | some w => (toPyIdx kvs rest).map (w :: ·) := by
  rw [toPyIdx]
  split
  · rename_i h'
    rw [hv] at h'
    cases h'
  · rename_i v' h'
    rw [hv] at h'
    cases h'
    rfl

theorem toPy_jdict_pos {kvs : List (JKey × JVal)}
    (hc : (!(kvs.map Prod.fst).isEmpty && (kvs.map Prod.fst).all keyIsDigit) = true) :
    toPy (.jdict kvs)
      = (toPyIdx kvs (((kvs.map Prod.fst).map keyToInt).mergeSort
          (fun a b => decide (a ≤ b)))).map JVal.jlist := by
  rw [toPy, if_pos hc]

theorem toPy_jdict_neg {kvs : List (JKey × JVal)}
    (hc : ¬ ((!(kvs.map Prod.fst).isEmpty && (kvs.map Prod.fst).all keyIsDigit) = true)) :
    toPy (.jdict kvs) = (toPyDict kvs).map JVal.jdict := by
  rw [toPy, if_neg hc]

theorem toPyIdx_eq_toPyList (kvs : List (JKey × JVal))
    (hcanon : ∀ k ∈ kvs.map Prod.fst, canonKey k)
    (hnd : (kvs.map Prod.fst).Nodup) :
    ∀ ps : List (JKey × JVal), (∀ p ∈ ps, p ∈ kvs) →
      toPyIdx kvs (ps.map (fun p => keyToInt p.1)) = toPyList (ps.map Prod.snd) := by
  intro ps
  induction ps with
  | nil =>
    intro _
    rw [List.map_nil, List.map_nil, toPyIdx_nil, toPyList]
  | cons p rest ih =>
    intro hps
    have hpmem : p ∈ kvs := hps p (List.mem_cons_self _ _)
    have hpk : canonKey p.1 := hcanon p.1 (List.mem_map.2 ⟨p, hpmem, rfl⟩)
    have hget : dictGet kvs (.kStr (toString (keyToInt p.1))) = some p.2 := by
      rw [kStr_toString_keyToInt hpk]
      exact dictGet_of_mem_nodup hnd (by simpa using hpmem)
    rw [List.map_cons, List.map_cons, toPyIdx_cons_of_get hget, toPyList]
    simp only [ih (fun q hq => hps q (List.mem_cons_of_mem _ hq))]

/-- Central normalizer lemma: a nonempty mapping whose keys are all canonical
digit strings is rebuilt as the list of its values sorted by ascending
numeric key, each value recursively normalized (with any inner `KeyError`
propagating). -/
theorem toPy_jdict_canonical (kvs : List (JKey × JVal)) (hne : kvs ≠ [])
    (hcanon : ∀ k ∈ kvs.map Prod.fst, canonKey k)
    (hnd : (kvs.map Prod.fst).Nodup) :
    toPy (.jdict kvs)
      = (toPyList ((kvs.mergeSort
          (fun a b => decide (keyToInt a.1 ≤ keyToInt b.1))).map Prod.snd)).map
        JVal.jlist := by
  have hc : (!(kvs.map Prod.fst).isEmpty && (kvs.map Prod.fst).all keyIsDigit) = true := by
    rw [Bool.and_eq_true]
    refine ⟨?_, ?_⟩
    · cases kvs
      · exact absurd rfl hne
      · rfl
    · rw [List.all_eq_true]
      exact fun k hk => keyIsDigit_of_canon (hcanon k hk)
  rw [toPy_jdict_pos hc]
  have hmap : ((kvs.map Prod.fst).map keyToInt) = kvs.map (fun p => keyToInt p.1) := by
    rw [List.map_map]
    rfl
  have hms := (List.map_mergeSort
    (r := fun a b : JKey × JVal => decide (keyToInt a.1 ≤ keyToInt b.1))
    (s := fun a b : Int => decide (a ≤ b))
    (f := fun p : JKey × JVal => keyToInt p.1)
    (l := kvs) (fun a _ b _ => rfl)).symm
  rw [hmap, hms]
  rw [toPyIdx_eq_toPyList kvs hcanon hnd _
    (fun p hp => (List.mergeSort_perm kvs _).subset hp)]

theorem keyToInt_canon (n : Nat) : keyToInt (JKey.kStr (toString n)) = (n : Int) := by
  rw [keyToInt, digitsToNat_toString]

theorem toPy_scalar {v : JVal} (h : isScalar v = true) : toPy v = some v := by
  cases v <;> simp_all [toPy, isScalar]

theorem toPyList_scalars {s : List JVal} (h : ∀ v ∈ s, isScalar v = true) :
    toPyList s = some s := by
  induction s with
  | nil => rw [toPyList]
  | cons v rest ih =>
    rw [toPyList, toPy_scalar (h v (List.mem_cons_self v rest))]
    rw [ih (fun w hw => h w (List.mem_cons_of_mem _ hw))]
    rfl

/-- The index-keyed-mapping encoding of a sequence used by the round-trip
property: `{"0": s[0], "1": s[1], ...}`. -/
def encodeIdx (s : List JVal) : JVal :=
  .jdict (s.enum.map (fun p => (JKey.kStr (toString p.1), p.2)))

theorem encodeIdx_roundtrip {s : List JVal} (hne : s ≠ []) :
    toPy (encodeIdx s) = (toPyList s).map JVal.jlist := by
  set g : Nat × JVal → JKey × JVal := fun p => (JKey.kStr (toString p.1), p.2) with hg
  have hfst : (s.enum.map g).map Prod.fst
      = (List.range s.length).map (fun n => JKey.kStr (toString n)) := by
    rw [List.map_map, ← List.enum_map_fst s, List.map_map]
    rfl
  have hcanon : ∀ k ∈ (s.enum.map g).map Prod.fst, canonKey k := by
    rw [hfst]
    intro k hk
    rcases List.mem_map.1 hk with ⟨n, _, rfl⟩
    exact ⟨n, rfl⟩
  have hnd : ((s.enum.map g).map Prod.fst).Nodup := by
    rw [hfst]
    refine List.Nodup.map ?_ (List.nodup_range s.length)
    intro m n hmn
    exact toString_nat_injective (JKey.kStr.inj hmn)
  have hne' : s.enum.map g ≠ [] := by
    intro h
    rcases List.map_eq_nil_iff.1 h with h'
    exact hne (by simpa using congrArg List.length h')
  have hsorted : (s.enum.map g).Pairwise
      (fun a b => decide (keyToInt a.1 ≤ keyToInt b.1) = true) := by
    have h1 : (s.enum.map Prod.fst).Pairwise (· < ·) := by
      rw [List.enum_map_fst]
      exact List.pairwise_lt_range s.length
    have h2 : s.enum.Pairwise (fun a b => a.1 < b.1) := (List.pairwise_map).1 h1
    rw [List.pairwise_map]
    refine h2.imp ?_
    intro a b hab
    simp only [hg, keyToInt_canon]
    exact decide_eq_true (Int.ofNat_le.2 (Nat.le_of_lt hab))
  have hmain := toPy_jdict_canonical (s.enum.map g) hne' hcanon hnd
  rw [encodeIdx, hmain]
  have hms : (s.enum.map g).mergeSort (fun a b => decide (keyToInt a.1 ≤ keyToInt b.1))
      = s.enum.map g := by
    apply List.mergeSort_of_sorted
    exact hsorted
  rw [hms, List.map_map]
  have hsnd : (s.enum).map (Prod.snd ∘ g) = s := by
    have : Prod.snd ∘ g = Prod.snd := rfl
    rw [this, List.enum_map_snd]
  rw [hsnd]

/-- C2, counterexample. The claim says a mapping whose keys are all
syntactically non-negative integers is reinterpreted as a sequence of its
values "whether the keys are strings or native integers". On the code,
`_to_py` looks values up with `o[str(i)]` where `i = int(key)`; a native
int key `0` (or a non-canonical digit string key such as `"00"`) is not
equal to the string `str(i)`, so the lookup raises `KeyError` (modelled as
`none`) instead of producing the value sequence. -/
theorem c2_nonstring_numeric_keys_raise_keyerror :
    toPy (.jdict [(JKey.kInt 0, JVal.jstr "a")]) = none
    ∧ toPy (.jdict [(JKey.kInt 0, JVal.jstr "a")]) ≠ some (.jlist [.jstr "a"])
    ∧ toPy (.jdict [(JKey.kStr "00", JVal.jstr "b")]) = none := by
  have h1 : toPy (.jdict [(JKey.kInt 0, JVal.jstr "a")]) = none := by
    simp [toPy, toPyIdx, dictGet, keyIsDigit, pyStr, isDigitStr, keyToInt, digitsToNat,
      show toString (0:Int) = "0" from rfl, show toString (0:Int) ≠ "" from by decide]
  have h2 : toPy (.jdict [(JKey.kStr "00", JVal.jstr "b")]) = none := by
    simp [toPy, toPyIdx, dictGet, keyIsDigit, pyStr, isDigitStr, keyToInt, digitsToNat,
      show toString (0:Int) = "0" from rfl]
  refine ⟨h1, ?_, h2⟩
  rw [h1]
  intro h
  cases h

/-- C2 (amended): a nonempty mapping whose keys are all canonical decimal
digit strings (`str(n)` for naturals `n` — all-digit strings with no leading
zeros; native int keys and non-canonical digit strings instead raise
`KeyError`, see the counterexample) is reinterpreted as the ordered sequence
of its recursively normalized values sorted by ascending numeric key; a
mapping with at least one non-numeric key is kept as a mapping with each
value recursively normalized; sequences are kept with elements recursively
normalized; scalars pass through unchanged; and the empty mapping is kept as
a mapping. -/
theorem c2_normalize_mapping_shapes :
    (∀ kvs : List (JKey × JVal), kvs ≠ [] →
        (∀ k ∈ kvs.map Prod.fst, canonKey k) → (kvs.map Prod.fst).Nodup →
        toPy (.jdict kvs)
          = (toPyList ((kvs.mergeSort
              (fun a b => decide (keyToInt a.1 ≤ keyToInt b.1))).map Prod.snd)).map
            JVal.jlist)
    ∧ (∀ kvs : List (JKey × JVal), (∃ k ∈ kvs.map Prod.fst, keyIsDigit k = false) →
        toPy (.jdict kvs) = (toPyDict kvs).map JVal.jdict)
    ∧ (∀ vs : List JVal, toPy (.jlist vs) = (toPyList vs).map JVal.jlist)
    ∧ (∀ v : JVal, isScalar v = true → toPy v = some v)
    ∧ toPy (.jdict []) = some (.jdict []) := by
  refine ⟨toPy_jdict_canonical, ?_, ?_, fun v h => toPy_scalar h, ?_⟩
  · intro kvs hex
    apply toPy_jdict_neg
    intro hc
    rcases hex with ⟨k, hk, hkd⟩
    simp only [Bool.and_eq_true] at hc
    have := (List.all_eq_true.1 hc.2) k hk
    rw [hkd] at this
    cases this
  · intro vs
    rw [toPy]
  · simp [toPy, toPyDict]

/-- C2 witness: a concrete digit-string-keyed mapping becomes the value
sequence; a concrete mapping with a non-numeric key keeps its shape. -/
theorem c2_normalize_mapping_shapes_witness :
    toPy (.jdict [(JKey.kStr "0", JVal.jstr "a")]) = some (.jlist [.jstr "a"])
    ∧ toPy (.jdict [(JKey.kStr "x", JVal.jstr "y")])
        = some (.jdict [(JKey.kStr "x", JVal.jstr "y")]) := by
  constructor
  · have h := c2_normalize_mapping_shapes.1 [(JKey.kStr "0", JVal.jstr "a")]
      (by simp)
      (by
        intro k hk
        simp at hk
        subst hk
        exact ⟨0, rfl⟩)
      (by simp)
    rw [h, List.mergeSort_singleton]
    simp only [List.map_cons, List.map_nil]
    rw [show toPyList [JVal.jstr "a"] = some [JVal.jstr "a"] from
      toPyList_scalars (by simp [isScalar])]
    rfl
  · have h := c2_normalize_mapping_shapes.2.1 [(JKey.kStr "x", JVal.jstr "y")]
      ⟨JKey.kStr "x", by simp, by decide⟩
    rw [h]
    simp [toPyDict, toPy]

/-- C3, counterexample. Encoding the empty sequence gives the empty mapping
`{}`, which `_to_py` deliberately keeps as a mapping (the `keys and ...`
guard fails on no keys), so the round-trip returns `{}`, not `[]`. -/
theorem c3_empty_sequence_roundtrip_fails :
    toPy (encodeIdx []) = some (.jdict [])
    ∧ toPy (encodeIdx []) ≠ some (.jlist []) := by
  have h1 : toPy (encodeIdx []) = some (.jdict []) := by
    simp [encodeIdx, toPy, toPyDict]
  refine ⟨h1, ?_⟩
  rw [h1]
  intro h
  cases h

/-- C3 (amended): for every NONEMPTY sequence `s`, normalizing the
index-keyed-mapping encoding `{"0": s[0], "1": s[1], ...}` agrees with
normalizing `s` itself elementwise — in particular the relative order of
elements is preserved at every nesting depth — and when the elements are
scalars the round-trip returns exactly `s`. (For the empty sequence the
round-trip yields the empty mapping instead; see the counterexample.) -/
theorem c3_roundtrip_nonempty (s : List JVal) (hne : s ≠ []) :
    toPy (encodeIdx s) = (toPyList s).map JVal.jlist
    ∧ ((∀ v ∈ s, isScalar v = true) → toPy (encodeIdx s) = some (.jlist s)) := by
  refine ⟨encodeIdx_roundtrip hne, ?_⟩
  intro hs
  rw [encodeIdx_roundtrip hne, toPyList_scalars hs]
  rfl

/-- C3 witness: the round-trip at the concrete scalar sequence
`["A", "B", "C"]`. -/
theorem c3_roundtrip_nonempty_witness :
    toPy (encodeIdx [JVal.jstr "A", JVal.jstr "B", JVal.jstr "C"])
      = some (.jlist [JVal.jstr "A", JVal.jstr "B", JVal.jstr "C"]) :=
  (c3_roundtrip_nonempty [JVal.jstr "A", JVal.jstr "B", JVal.jstr "C"] (by simp)).2
    (by simp [isScalar])

/-! ## Workflow graphs (workflow/graph.py)

Each `create_*_workflow_graph` function adds the six stage nodes and a set of
directed edges, and sets the entry point `pdf_extraction`. A graph is
embedded as its edge list; LangGraph executes in supersteps: every successor
of a node that just ran is activated in the next superstep, so a node with
several outgoing edges fans its successors out concurrently, and the
frontier of simultaneously active nodes evolves by taking all successors. -/

/-- Edges added by `create_workflow_graph` (graph.py lines 30–35): the strict
sequential chain. -/
def seqEdges : List (String × String) :=
  [("pdf_extraction", "auth_integrations"),
   ("auth_integrations", "domain_api_design"),
   ("domain_api_design", "behavior_quality"),
   ("behavior_quality", "diagram_generation"),
   ("diagram_generation", "output_composition"),
   ("output_composition", "END")]

/-- Edges added by `create_parallel_workflow_graph` (graph.py lines 62–77),
including the extra `parallel_coordinator` node. -/
def parallelEdges : List (String × String) :=
  [("pdf_extraction", "parallel_coordinator"),
   ("parallel_coordinator", "auth_integrations"),
   ("parallel_coordinator", "domain_api_design"),
   ("parallel_coordinator", "behavior_quality"),
   ("auth_integrations", "diagram_generation"),
   ("domain_api_design", "diagram_generation"),
   ("behavior_quality", "diagram_generation"),
   ("diagram_generation", "output_composition"),
   ("output_composition", "END")]

/-- Successors of node `u` in an edge list. -/
def nextNodes (es : List (String × String)) (u : String) : List String :=
  (es.filter (fun e => e.1 == u)).map Prod.snd

/-- One LangGraph superstep: all successors of all active nodes. -/
def stepFrontier (es : List (String × String)) (f : List String) : List String :=
  (f.map (nextNodes es)).flatten

/-- Nodes active in the n-th superstep from the entry point `pdf_extraction`
(both graphs call `set_entry_point("pdf_extraction")`). -/
def frontierAt (es : List (String × String)) : Nat → List String
  | 0 => ["pdf_extraction"]
  | n + 1 => stepFrontier es (frontierAt es n)

theorem nextNodes_length_le_one :
    ∀ es : List (String × String), (es.map Prod.fst).Nodup →
      ∀ u, (nextNodes es u).length ≤ 1 := by
  intro es
  induction es with
  | nil =>
    intro _ u
    simp [nextNodes]
  | cons e rest ih =>
    intro hnd u
    rw [List.map_cons, List.nodup_cons] at hnd
    rw [nextNodes, List.filter_cons]
    by_cases he : e.1 = u
    · have hb : (e.1 == u) = true := by
        rw [he]
        exact beq_self_eq_true u
      rw [if_pos hb]
      have hrest : rest.filter (fun e' => e'.1 == u) = [] := by
        rw [List.filter_eq_nil_iff]
        intro a ha hau
        apply hnd.1
        rw [he, ← eq_of_beq hau]
        exact List.mem_map.2 ⟨a, ha, rfl⟩
      rw [List.map_cons, hrest]
      simp
    · have hb : (e.1 == u) = false := by
        rw [beq_eq_false_iff_ne]
        exact he
      rw [if_neg (by rw [hb]; exact Bool.false_ne_true)]
      exact ih hnd.2 u

theorem frontier_seq_length_le_one : ∀ n, (frontierAt seqEdges n).length ≤ 1 := by
  have hnd : (seqEdges.map Prod.fst).Nodup := by decide
  intro n
  induction n with
  | zero => simp [frontierAt]
  | succ m ih =>
    rw [frontierAt, stepFrontier]
    cases h : frontierAt seqEdges m with
    | nil => simp
    | cons u tail =>
      cases tail with
      | nil =>
        simp only [List.map_cons, List.map_nil, List.flatten]
        simpa using nextNodes_length_le_one seqEdges hnd u
      | cons v tail' =>
        rw [h] at ih
        simp at ih

/-- C1: the "parallel" (claimed optimized-sequential) workflow graph is NOT
the same linear chain as the sequential graph. In the code
(graph.py lines 62–77) `parallel_coordinator` has all three analysis stages
as successors, so after the coordinator's superstep the scheduler activates
`auth_integrations`, `domain_api_design` and `behavior_quality`
simultaneously — two supersteps after entry the frontier is exactly those
three stages — whereas in the sequential graph at most one node is ever
active per superstep. This contradicts the claim (and the repository's own
test_parallel_fix.py summary, which states the parallel workflow "now uses
optimized sequential execution" and that the concurrent-update error is
resolved); concurrent writers to the shared dict state make this graph fail
at run time, so the code, not the claim, is in error. -/
theorem c1_parallel_graph_fans_out_analysis_stages :
    nextNodes parallelEdges "parallel_coordinator"
      = ["auth_integrations", "domain_api_design", "behavior_quality"]
    ∧ frontierAt parallelEdges 2
      = ["auth_integrations", "domain_api_design", "behavior_quality"]
    ∧ (∀ n, (frontierAt seqEdges n).length ≤ 1) := by
  refine ⟨by decide, by decide, frontier_seq_length_le_one⟩

/-! ## Shared workspace state

`state/models.py` and `state/schema.py` are not part of the source snapshot
(only their callers and tests are), so the workspace data model and its
operations are modelled from the specification (spec §3, §4.1) and from the
behaviour asserted by tests.py. Facet payloads (extracted content, analysis
results, ...) are abstracted to opaque strings: their internal structure is
out of scope for the orchestration claims. -/

/-- Modelled from the spec: one per-stage status entry
(`{state, message: optional, timestamp: optional}`, spec §3); the timestamp
is irrelevant to every claim and is omitted. -/
structure ProcessingStatus where
  status : String
  message : Option String := none
deriving DecidableEq, Repr

/-- Modelled from the spec: the `HLDState` workspace of state/models.py —
identity fields, one optional field per facet, the per-stage status mapping
(an association list in insertion order), and append-only diagnostics
(spec §3). -/
structure HLDState where
  pdf_path : String := ""
  requirement_name : String := ""
  extracted : Option String := none
  authentication : Option String := none
  integrations : List String := []
  domain : Option String := none
  behavior : Option String := none
  diagrams : Option String := none
  output : Option String := none
  status : List (String × ProcessingStatus) := []
  errors : List String := []
  warnings : List String := []
deriving DecidableEq, Repr

/-- First-match lookup in the status mapping (`stage in state.status` /
`state.status[stage]`). -/
def statusGet (l : List (String × ProcessingStatus)) (s : String) :
    Option ProcessingStatus :=
  match l with
  | [] => none
  | (k, ps) :: rest => if k = s then some ps else statusGet rest s

/-- Replace-or-append update of the status mapping (Python dict assignment
preserves insertion order of an existing key). -/
def statusSet (l : List (String × ProcessingStatus)) (s : String)
    (ps : ProcessingStatus) : List (String × ProcessingStatus) :=
  match l with
  | [] => [(s, ps)]
  | (k, v) :: rest => if k = s then (s, ps) :: rest else (k, v) :: statusSet rest s ps

/-- Modelled from the spec: `HLDState.update_status` (spec §4.1) — sets the
stage's status entry. -/
def HLDState.update_status (w : HLDState) (stage st : String)
    (msg : Option String) : HLDState :=
  { w with status := statusSet w.status stage ⟨st, msg⟩ }

/-- Modelled from the spec: `HLDState.add_error` appends (spec §4.1). -/
def HLDState.add_error (w : HLDState) (e : String) : HLDState :=
  { w with errors := w.errors ++ [e] }

/-- Modelled from the spec: `HLDState.add_warning` appends (spec §4.1). -/
def HLDState.add_warning (w : HLDState) (e : String) : HLDState :=
  { w with warnings := w.warnings ++ [e] }

/-- Modelled from the spec: `HLDState.has_errors` (spec §4.1). -/
def HLDState.has_errors (w : HLDState) : Bool := !w.errors.isEmpty

/-- Modelled from the spec: `HLDState.is_stage_completed` (spec §4.1,
tests.py line 43: true after `update_status(stage, "completed")`). -/
def HLDState.is_stage_completed (w : HLDState) (s : String) : Bool :=
  match statusGet w.status s with
  | some ps => ps.status == "completed"
  | none => false

/-- `stage in state.status and state.status[stage].status == "failed"`
(nodes.py lines 99–100). -/
def stageFailed (w : HLDState) (s : String) : Bool :=
  match statusGet w.status s with
  | some ps => ps.status == "failed"
  | none => false

/-- `WorkflowNodes.should_continue` from nodes.py lines 91–117. The Python
loop over `critical_stages = ["pdf_extraction"]` has exactly one iteration
and collapses to the single `stageFailed` test. -/
def shouldContinue (w : HLDState) : String :=
  if w.has_errors && stageFailed w "pdf_extraction" then "END"
  else if !w.is_stage_completed "pdf_extraction" then "pdf_extraction"
  else if !w.is_stage_completed "auth_integrations" then "auth_integrations"
  else if !w.is_stage_completed "domain_api_design" then "domain_api_design"
  else if !w.is_stage_completed "behavior_quality" then "behavior_quality"
  else if !w.is_stage_completed "diagram_generation" then "diagram_generation"
  else if !w.is_stage_completed "output_composition" then "output_composition"
  else "END"

/-- The six stages in dependency order (spec §2; also the routing cascade
order of nodes.py and the key set of `get_node_runnables`). -/
def stageOrder : List String :=
  ["pdf_extraction", "auth_integrations", "domain_api_design",
   "behavior_quality", "diagram_generation", "output_composition"]

/-- The conditional-edge mapping registered by
`create_conditional_workflow_graph` (graph.py lines 104–116); `"END"` maps
to the graph's END sentinel. -/
def condEdgeMap : List (String × String) :=
  [("pdf_extraction", "pdf_extraction"),
   ("auth_integrations", "auth_integrations"),
   ("domain_api_design", "domain_api_design"),
   ("behavior_quality", "behavior_quality"),
   ("diagram_generation", "diagram_generation"),
   ("output_composition", "output_composition"),
   ("END", "END")]

/-- Spec-side routing function, phrased exactly as the claim words it: the
first stage in dependency order whose status is not completed, or `"END"`
when all six are completed. -/
def firstIncompleteStage (w : HLDState) : String :=
  (stageOrder.find? (fun s => !w.is_stage_completed s)).getD "END"

/-- Workspace in which `pdf_extraction` is `failed` but the errors list is
empty. (Unreachable through the agent contract — failing always appends an
error — but a legal workspace state, over which the claim quantifies.) -/
def wsFailedNoError : HLDState :=
  { status := [("pdf_extraction", ⟨"failed", none⟩)] }

/-- C4, counterexample. `should_continue` only returns `"END"` when
`has_errors()` is also true (nodes.py line 96): on a workspace whose
`pdf_extraction` status is `failed` but whose errors list is empty it falls
through the cascade and returns `"pdf_extraction"`, not `"END"`. -/
theorem c4_failed_extraction_without_error_not_end :
    stageFailed wsFailedNoError "pdf_extraction" = true
    ∧ wsFailedNoError.errors = []
    ∧ shouldContinue wsFailedNoError = "pdf_extraction"
    ∧ "pdf_extraction" ≠ "END" := by decide

/-- C4 (amended): for every workspace state in which `pdf_extraction` is
`failed` AND the errors list is nonempty (which is always the case for
states produced by a run, since a stage fails only together with an appended
error), `should_continue` returns `"END"`, so the conditional workflow
terminates instead of advancing to any later stage. -/
theorem c4_failed_extraction_routes_end (w : HLDState)
    (hf : stageFailed w "pdf_extraction" = true) (he : w.errors ≠ []) :
    shouldContinue w = "END" := by
  have hh : w.has_errors = true := by
    rw [HLDState.has_errors]
    cases herr : w.errors with
    | nil => exact absurd herr he
    | cons a l => rfl
  simp [shouldContinue, hh, hf]

/-- Workspace with a failed extraction stage and its recorded error. -/
def wsFailedWithError : HLDState :=
  { status := [("pdf_extraction",
      ⟨"failed", some "pdf_extraction LLM call failed: boom"⟩)],
    errors := ["pdf_extraction LLM call failed: boom"] }

/-- C4 witness: the amended claim at a concrete failed-with-error state. -/
theorem c4_failed_extraction_routes_end_witness :
    shouldContinue wsFailedWithError = "END" :=
  c4_failed_extraction_routes_end wsFailedWithError (by decide) (by decide)

/-- C5: with no failed critical stage, `should_continue` returns exactly the
first stage in dependency order whose status is not `completed` (and `"END"`
when all six are completed) — the router is the spec's
"first not-yet-completed stage" function. -/
theorem c5_router_first_incomplete (w : HLDState)
    (hf : stageFailed w "pdf_extraction" = false) :
    shouldContinue w = firstIncompleteStage w := by
  have hcond : (w.has_errors && stageFailed w "pdf_extraction") = false := by
    rw [hf, Bool.and_false]
  rw [shouldContinue, hcond, firstIncompleteStage, stageOrder]
  by_cases h1 : w.is_stage_completed "pdf_extraction" <;>
    by_cases h2 : w.is_stage_completed "auth_integrations" <;>
      by_cases h3 : w.is_stage_completed "domain_api_design" <;>
        by_cases h4 : w.is_stage_completed "behavior_quality" <;>
          by_cases h5 : w.is_stage_completed "diagram_generation" <;>
            by_cases h6 : w.is_stage_completed "output_composition" <;>
              simp [List.find?, h1, h2, h3, h4, h5, h6]

/-- Workspace with the first three stages completed and the rest pending. -/
def wsThreeDone : HLDState :=
  { status := [("pdf_extraction", ⟨"completed", none⟩),
               ("auth_integrations", ⟨"completed", none⟩),
               ("domain_api_design", ⟨"completed", none⟩),
               ("behavior_quality", ⟨"pending", none⟩),
               ("diagram_generation", ⟨"pending", none⟩),
               ("output_composition", ⟨"pending", none⟩)] }

/-- C5 witness: a workspace with stages 1–3 completed routes directly to
`behavior_quality`, skipping the completed stages. -/
theorem c5_router_first_incomplete_witness :
    stageFailed wsThreeDone "pdf_extraction" = false
    ∧ shouldContinue wsThreeDone = "behavior_quality" := by
  refine ⟨by decide, ?_⟩
  rw [c5_router_first_incomplete wsThreeDone (by decide)]
  decide

/-- C10: `should_continue` is total over the routing table — whatever the
status mapping contains, it returns one of the seven labels that are
precisely the keys of the conditional-edge mapping of
`create_conditional_workflow_graph`, so routing can never produce an
unmapped target. -/
theorem c10_router_total (w : HLDState) :
    shouldContinue w ∈ condEdgeMap.map Prod.fst := by
  rw [shouldContinue]
  split_ifs <;> decide

/-! ## Stage agents and the sequential run

The `agent/` package is not part of the source snapshot; the common stage
agent algorithm is modelled from the specification (spec §4.3) and the
behaviour asserted by tests.py (TestErrorHandling.test_llm_failure_handling).
The opaque backend call is a parameter of type `Except String String`:
`.ok payload` is a successful `generate` call (parsing and normalization of
the payload are collapsed into the opaque payload — their internals are
covered by the normalizer section), `.error cause` is a raised exception. -/

/-- The error string format asserted by tests.py line 327 and spec §4.3
step 3. -/
def errMsg (stage cause : String) : String :=
  stage ++ " LLM call failed: " ++ cause

/-- Modelled from the spec: each agent writes its typed fields back into the
workspace (spec §2, §4.3 step 6); the facet payloads are abstracted to one
opaque string per stage. -/
def writeFacet (w : HLDState) (stage : String) (payload : String) : HLDState :=
  if stage = "pdf_extraction" then { w with extracted := some payload }
  else if stage = "auth_integrations" then
    { w with authentication := some payload, integrations := [payload] }
  else if stage = "domain_api_design" then { w with domain := some payload }
  else if stage = "behavior_quality" then { w with behavior := some payload }
  else if stage = "diagram_generation" then { w with diagrams := some payload }
  else if stage = "output_composition" then { w with output := some payload }
  else w

/-- The `{success, error?}` result dictionary returned by every agent's
`process` (spec §4.3). -/
structure AgentResult where
  state : HLDState
  success : Bool
  error : Option String
deriving DecidableEq, Repr

/-- Modelled from the spec: the common `process(workspace)` algorithm of the
six stage agents (spec §4.3): set status `processing`; invoke the backend;
on an exception catch it, set status `failed`, append the descriptive error
and return `success=false` (never re-raising past the agent boundary — the
return type is a plain result, not an exception); on success write the
facet fields and set status `completed`, returning `success=true`. -/
def processAgent (stage : String) (backend : Except String String)
    (w : HLDState) : AgentResult :=
  let w1 := w.update_status stage "processing" none
  match backend with
  | .error cause =>
    let w2 := (w1.update_status stage "failed" (some (errMsg stage cause))).add_error
      (errMsg stage cause)
    ⟨w2, false, some (errMsg stage cause)⟩
  | .ok payload =>
    let w2 := (writeFacet w1 stage payload).update_status stage "completed" none
    ⟨w2, true, none⟩

/-- Modelled from the spec: `create_initial_state` of state/schema.py — a
fresh workspace with every known stage `pending` from creation (spec §3
invariants; tests.py line 97 asserts the statuses are present). The
`requirement_name` stem computation is abstracted to the raw path. -/
def createInitialState (p : String) : HLDState :=
  { pdf_path := p
    requirement_name := p
    status := stageOrder.map (fun s => (s, ⟨"pending", none⟩)) }

/-- One node execution of the sequential graph: run the stage's agent
against the shared workspace (nodes.py `*_node` methods). -/
def runStage (beh : String → Except String String) (w : HLDState)
    (stage : String) : HLDState :=
  (processAgent stage (beh stage) w).state

/-- Follow the unique out-edges of an edge list from a node, stopping at
`END` (or at a fan-out, which the sequential graph does not have). -/
def followChain (es : List (String × String)) : Nat → String → List String
  | 0, _ => []
  | n + 1, u =>
    match nextNodes es u with
    | [v] => if v = "END" then [] else v :: followChain es n v
    | _ => []

/-- The execution order of the sequential graph: entry point plus the chain
of its edges. -/
def seqPath : List String := "pdf_extraction" :: followChain seqEdges 6 "pdf_extraction"

theorem seqPath_eq_stageOrder : seqPath = stageOrder := by decide

/-- The whole sequential run: fold the stages of the sequential graph over a
fresh workspace. -/
def runSeq (beh : String → Except String String) (p : String) : HLDState :=
  seqPath.foldl (runStage beh) (createInitialState p)

/-- The sequential run stopped after its first `n` stages. -/
def runSeqUpTo (beh : String → Except String String) (p : String)
    (n : Nat) : HLDState :=
  (stageOrder.take n).foldl (runStage beh) (createInitialState p)

/-- The status string a workspace records for a stage. -/
def statusStr (w : HLDState) (s : String) : Option String :=
  (statusGet w.status s).map ProcessingStatus.status

/-- A status that the state machine never leaves. -/
def isTerminalStatus (o : Option String) : Prop :=
  o = some "completed" ∨ o = some "failed"

instance (o : Option String) : Decidable (isTerminalStatus o) := by
  unfold isTerminalStatus
  infer_instance

theorem statusGet_statusSet_self (l : List (String × ProcessingStatus))
    (s : String) (ps : ProcessingStatus) :
    statusGet (statusSet l s ps) s = some ps := by
  induction l with
  | nil => simp [statusSet, statusGet]
  | cons kv rest ih =>
    obtain ⟨k, v⟩ := kv
    rw [statusSet]
    by_cases hk : k = s
    · rw [if_pos hk, statusGet, if_pos rfl]
    · rw [if_neg hk, statusGet, if_neg hk]
      exact ih

theorem statusGet_statusSet_ne (l : List (String × ProcessingStatus))
    {s t : String} (h : t ≠ s) (ps : ProcessingStatus) :
    statusGet (statusSet l s ps) t = statusGet l t := by
  induction l with
  | nil =>
    simp only [statusSet, statusGet]
    rw [if_neg (fun he => h he.symm)]
  | cons kv rest ih =>
    obtain ⟨k, v⟩ := kv
    rw [statusSet]
    by_cases hk : k = s
    · rw [if_pos hk]
      simp only [statusGet]
      rw [if_neg (fun he => h he.symm), if_neg (by rw [hk]; exact fun he => h he.symm)]
    · rw [if_neg hk]
      simp only [statusGet]
      by_cases hkt : k = t
      · rw [if_pos hkt, if_pos hkt]
      · rw [if_neg hkt, if_neg hkt]
        exact ih

theorem status_writeFacet (w : HLDState) (stage payload : String) :
    (writeFacet w stage payload).status = w.status := by
  rw [writeFacet]
  split_ifs <;> rfl

theorem processAgent_error_state (s c : String) (w : HLDState) :
    (processAgent s (.error c) w).state
      = ((w.update_status s "processing" none).update_status s "failed"
          (some (errMsg s c))).add_error (errMsg s c) := rfl

theorem processAgent_ok_state (s payload : String) (w : HLDState) :
    (processAgent s (.ok payload) w).state
      = (writeFacet (w.update_status s "processing" none) s payload).update_status
          s "completed" none := rfl

theorem statusStr_runStage_ne (beh : String → Except String String)
    (w : HLDState) {s t : String} (h : t ≠ s) :
    statusStr (runStage beh w s) t = statusStr w t := by
  rw [runStage]
  cases hb : beh s with
  | error cause =>
    rw [processAgent_error_state]
    simp only [statusStr, HLDState.update_status, HLDState.add_error]
    rw [statusGet_statusSet_ne _ h, statusGet_statusSet_ne _ h]
  | ok payload =>
    rw [processAgent_ok_state]
    simp only [statusStr, HLDState.update_status]
    rw [statusGet_statusSet_ne _ h, status_writeFacet,
      statusGet_statusSet_ne _ h]

theorem statusStr_foldl_not_mem (beh : String → Except String String)
    {t : String} :
    ∀ (l : List String) (w : HLDState), t ∉ l →
      statusStr (l.foldl (runStage beh) w) t = statusStr w t := by
  intro l
  induction l with
  | nil =>
    intro w _
    rfl
  | cons s rest ih =>
    intro w ht
    rw [List.foldl_cons]
    rw [ih (runStage beh w s) (fun hr => ht (List.mem_cons_of_mem _ hr))]
    exact statusStr_runStage_ne beh w (fun he => ht (he ▸ List.mem_cons_self _ _))

theorem statusStr_init (p s : String) :
    statusStr (createInitialState p) s = some "pending"
    ∨ statusStr (createInitialState p) s = none := by
  have : (createInitialState p).status
      = stageOrder.map (fun s => (s, ⟨"pending", none⟩)) := rfl
  rw [statusStr, this, stageOrder]
  simp only [List.map_cons, List.map_nil, statusGet]
  split_ifs <;> simp

/-- C8: for every stage agent, if the opaque backend call raises, the agent
catches it, sets the stage's status to `failed`, appends the descriptive
error `"<stage> LLM call failed: <cause>"` and returns `success=false`; the
result is an ordinary return value, so the raw exception never crosses the
agent boundary into the orchestrator. -/
theorem c8_agent_catches_backend_failure (stage cause : String) (w : HLDState) :
    (processAgent stage (.error cause) w).success = false
    ∧ (processAgent stage (.error cause) w).error = some (errMsg stage cause)
    ∧ statusStr (processAgent stage (.error cause) w).state stage = some "failed"
    ∧ (processAgent stage (.error cause) w).state.errors
        = w.errors ++ [errMsg stage cause] := by
  refine ⟨rfl, rfl, ?_, rfl⟩
  rw [processAgent_error_state]
  simp only [statusStr, HLDState.update_status, HLDState.add_error]
  rw [statusGet_statusSet_self]
  rfl

/-- C7: every known stage has a `pending` status entry immediately after
workspace creation, and along the sequential run the status of a stage never
regresses: once it is `completed` or `failed` after `n` stages it is
unchanged after any `m ≥ n` stages. -/
theorem c7_status_initialized_and_monotone :
    (∀ p : String, ∀ s ∈ stageOrder,
        statusGet (createInitialState p).status s = some ⟨"pending", none⟩)
    ∧ (∀ (beh : String → Except String String) (p s : String) (n m : Nat),
        n ≤ m → isTerminalStatus (statusStr (runSeqUpTo beh p n) s) →
        statusStr (runSeqUpTo beh p m) s = statusStr (runSeqUpTo beh p n) s) := by
  constructor
  · intro p s hs
    fin_cases hs <;> rfl
  · intro beh p s n m hnm hterm
    by_cases hmem : s ∈ stageOrder.take n
    · have hsplit : stageOrder.take m = stageOrder.take n ++ (stageOrder.drop n).take (m - n) := by
        rw [← List.take_add]
        congr 1
        omega
      rw [runSeqUpTo, hsplit, List.foldl_append]
      have hnot : s ∉ (stageOrder.drop n).take (m - n) := by
        intro hc
        have hdrop : s ∈ stageOrder.drop n := List.take_subset _ _ hc
        have hdis := List.disjoint_take_drop (l := stageOrder) (by decide) (Nat.le_refl n)
        exact hdis hmem hdrop
      rw [statusStr_foldl_not_mem beh _ _ hnot]
      rfl
    · exfalso
      have hpres : statusStr (runSeqUpTo beh p n) s = statusStr (createInitialState p) s := by
        rw [runSeqUpTo]
        exact statusStr_foldl_not_mem beh _ _ hmem
      rw [hpres] at hterm
      rcases statusStr_init p s with hi | hi <;>
        rw [hi] at hterm <;>
          rcases hterm with ht | ht <;> simp at ht

/-- C7 witness: at a concrete all-successful backend, the `pending` entry of
a fresh workspace, and the stability of `pdf_extraction`'s terminal status
between step 1 and step 3. -/
theorem c7_status_initialized_and_monotone_witness :
    statusGet (createInitialState "doc.pdf").status "auth_integrations"
      = some ⟨"pending", none⟩
    ∧ statusStr (runSeqUpTo (fun _ => .ok "out") "doc.pdf" 3) "pdf_extraction"
        = statusStr (runSeqUpTo (fun _ => .ok "out") "doc.pdf" 1) "pdf_extraction" :=
  ⟨c7_status_initialized_and_monotone.1 "doc.pdf" "auth_integrations" (by decide),
   c7_status_initialized_and_monotone.2 (fun _ => .ok "out") "doc.pdf"
     "pdf_extraction" 1 3 (by omega) (by decide)⟩

/-- Whether the workspace facet fields owned by a stage are still
empty/default. -/
def facetEmpty (w : HLDState) (stage : String) : Bool :=
  if stage = "pdf_extraction" then w.extracted.isNone
  else if stage = "auth_integrations" then
    w.authentication.isNone && w.integrations.isEmpty
  else if stage = "domain_api_design" then w.domain.isNone
  else if stage = "behavior_quality" then w.behavior.isNone
  else if stage = "diagram_generation" then w.diagrams.isNone
  else if stage = "output_composition" then w.output.isNone
  else true

/-- C6: in the sequential policy (whose graph has unconditional edges
through all six stages), when extraction succeeds and exactly one analysis
stage's backend raises, the run does not halt: the later stages
`diagram_generation` and `output_composition` still execute and complete,
the failed stage's workspace facet fields remain empty/default, and the
failure is visible only through `errors` (exactly one entry, the failed
stage's) and its `failed` status. -/
theorem c6_noncritical_failure_continues
    (beh : String → Except String String) (p f cause : String)
    (hf : f ∈ ["auth_integrations", "domain_api_design", "behavior_quality"])
    (hfe : beh f = .error cause)
    (hok : ∀ g ∈ stageOrder, g ≠ f → ∃ payload, beh g = .ok payload) :
    statusStr (runSeq beh p) "diagram_generation" = some "completed"
    ∧ statusStr (runSeq beh p) "output_composition" = some "completed"
    ∧ statusStr (runSeq beh p) f = some "failed"
    ∧ (runSeq beh p).errors = [errMsg f cause]
    ∧ facetEmpty (runSeq beh p) f = true := by
  simp only [List.mem_cons, List.not_mem_nil, or_false] at hf
  rcases hf with rfl | rfl | rfl
  · obtain ⟨p1, h1⟩ := hok "pdf_extraction" (by decide) (by decide)
    obtain ⟨p3, h3⟩ := hok "domain_api_design" (by decide) (by decide)
    obtain ⟨p4, h4⟩ := hok "behavior_quality" (by decide) (by decide)
    obtain ⟨p5, h5⟩ := hok "diagram_generation" (by decide) (by decide)
    obtain ⟨p6, h6⟩ := hok "output_composition" (by decide) (by decide)
    simp only [runSeq, seqPath_eq_stageOrder, stageOrder, List.foldl_cons,
      List.foldl_nil, runStage, h1, hfe, h3, h4, h5, h6,
      processAgent_error_state, processAgent_ok_state]
    simp [HLDState.update_status, HLDState.add_error, writeFacet, statusSet,
      statusGet, statusStr, createInitialState, stageOrder, facetEmpty, errMsg]
  · obtain ⟨p1, h1⟩ := hok "pdf_extraction" (by decide) (by decide)
    obtain ⟨p2, h2⟩ := hok "auth_integrations" (by decide) (by decide)
    obtain ⟨p4, h4⟩ := hok "behavior_quality" (by decide) (by decide)
    obtain ⟨p5, h5⟩ := hok "diagram_generation" (by decide) (by decide)
    obtain ⟨p6, h6⟩ := hok "output_composition" (by decide) (by decide)
    simp only [runSeq, seqPath_eq_stageOrder, stageOrder, List.foldl_cons,
      List.foldl_nil, runStage, h1, hfe, h2, h4, h5, h6,
      processAgent_error_state, processAgent_ok_state]
    simp [HLDState.update_status, HLDState.add_error, writeFacet, statusSet,
      statusGet, statusStr, createInitialState, stageOrder, facetEmpty, errMsg]
  · obtain ⟨p1, h1⟩ := hok "pdf_extraction" (by decide) (by decide)
    obtain ⟨p2, h2⟩ := hok "auth_integrations" (by decide) (by decide)
    obtain ⟨p3, h3⟩ := hok "domain_api_design" (by decide) (by decide)
    obtain ⟨p5, h5⟩ := hok "diagram_generation" (by decide) (by decide)
    obtain ⟨p6, h6⟩ := hok "output_composition" (by decide) (by decide)
    simp only [runSeq, seqPath_eq_stageOrder, stageOrder, List.foldl_cons,
      List.foldl_nil, runStage, h1, hfe, h2, h3, h5, h6,
      processAgent_error_state, processAgent_ok_state]
    simp [HLDState.update_status, HLDState.add_error, writeFacet, statusSet,
      statusGet, statusStr, createInitialState, stageOrder, facetEmpty, errMsg]

/-- Backend stub raising only for the auth/integrations stage (the scenario
of tests.py `test_llm_failure_handling`). -/
def behAuthFails : String → Except String String :=
  fun s => if s = "auth_integrations" then .error "LLM Error" else .ok "data"

/-- C6 witness: the partial-failure run with the concrete stub. -/
theorem c6_noncritical_failure_continues_witness :
    statusStr (runSeq behAuthFails "doc.pdf") "diagram_generation" = some "completed"
    ∧ statusStr (runSeq behAuthFails "doc.pdf") "output_composition" = some "completed"
    ∧ statusStr (runSeq behAuthFails "doc.pdf") "auth_integrations" = some "failed"
    ∧ (runSeq behAuthFails "doc.pdf").errors = [errMsg "auth_integrations" "LLM Error"]
    ∧ facetEmpty (runSeq behAuthFails "doc.pdf") "auth_integrations" = true :=
  c6_noncritical_failure_continues behAuthFails "doc.pdf" "auth_integrations"
    "LLM Error" (by decide) rfl
    (by
      intro g hg hne
      fin_cases hg <;> first | exact absurd rfl hne | exact ⟨"data", rfl⟩)

/-! ## Configuration validation

`state/schema.py` (the pydantic `ConfigSchema`) is not part of the source
snapshot; the configuration record and its construction-time validation are
modelled from the specification (spec §3, §6) and the behaviour asserted by
tests.py / test_pydantic_fix.py. The recognised enum values come from the
UI options in main.py lines 271–273. -/

def allowedImageFormats : List String := ["svg", "png"]

def allowedRenderers : List String := ["kroki", "mmdc"]

def allowedThemes : List String := ["default", "neutral", "dark"]

/-- Modelled from the spec: the immutable per-run `ConfigSchema`
(spec §3 Configuration). -/
structure ConfigSchema where
  render_images : Bool
  image_format : String
  renderer : String
  theme : String
deriving DecidableEq, Repr

/-- Whether a construction attempt was rejected. -/
def isError : Except String ConfigSchema → Bool
  | .error _ => true
  | .ok _ => false

/-- Modelled from the spec: constructing a `ConfigSchema` validates each enum
field synchronously, before any run starts or run artifact exists; an
unrecognised value is rejected (`.error`, the pydantic `ValueError`), and
recognised values construct the record (spec §6; tests.py lines 59–73). -/
def mkConfigSchema (render_images : Bool) (image_format renderer theme : String) :
    Except String ConfigSchema :=
  if image_format ∉ allowedImageFormats then
    .error "validation error: image_format"
  else if renderer ∉ allowedRenderers then
    .error "validation error: renderer"
  else if theme ∉ allowedThemes then
    .error "validation error: theme"
  else
    .ok ⟨render_images, image_format, renderer, theme⟩

/-- C9: construction with any unrecognised enum value (image format,
renderer or theme) is rejected synchronously at construction time, and
construction with recognised values succeeds. -/
theorem c9_config_validation :
    (∀ (ri : Bool) (fmt rend th : String), fmt ∉ allowedImageFormats →
        isError (mkConfigSchema ri fmt rend th) = true)
    ∧ (∀ (ri : Bool) (fmt rend th : String), rend ∉ allowedRenderers →
        isError (mkConfigSchema ri fmt rend th) = true)
    ∧ (∀ (ri : Bool) (fmt rend th : String), th ∉ allowedThemes →
        isError (mkConfigSchema ri fmt rend th) = true)
    ∧ mkConfigSchema true "png" "kroki" "default"
        = .ok ⟨true, "png", "kroki", "default"⟩ := by
  refine ⟨?_, ?_, ?_, rfl⟩ <;>
    intro ri fmt rend th h <;>
      rw [mkConfigSchema] <;>
        split_ifs with h1 h2 h3 <;>
          first
            | rfl
            | exact absurd h h1
            | exact absurd h h2
            | exact absurd h h3

/-- C9 witness: the concrete invalid values used by the test-suite. -/
theorem c9_config_validation_witness :
    isError (mkConfigSchema true "invalid" "kroki" "default") = true
    ∧ isError (mkConfigSchema true "png" "invalid" "default") = true :=
  ⟨c9_config_validation.1 true "invalid" "kroki" "default" (by decide),
   c9_config_validation.2.1 true "png" "invalid" "default" (by decide)⟩
